import Mathlib

/-
  Shallow embedding of dyle71/imap-archiver (src/imaparchiver/).

  Python strings are modelled as `List Char` where character-level splitting
  is involved (Connection.parse), and as Lean `String` elsewhere.  Server
  interaction is modelled as explicit traces of issued commands (`Op`) plus
  explicit state threading where the code's behaviour depends on it.
-/

namespace ImapArchiver

/-! ## Python string primitives

`pySplit sep s` models Python `s.split(sep)` for a one-character separator:
it keeps empty fragments and always returns a non-empty list. -/

def pySplit (sep : Char) : List Char → List (List Char)
  | [] => [[]]
  | c :: rest =>
    match pySplit sep rest with
    | [] => [[]]
    | g :: gs => if c = sep then [] :: g :: gs else (c :: g) :: gs

/-- Models Python `sep.join(parts)` for a one-character separator. -/
def pyJoin (sep : Char) : List (List Char) → List Char
  | [] => []
  | [x] => x
  | x :: xs => x ++ sep :: pyJoin sep xs

/-- Models Python `int(s)`: optional leading minus sign followed by at least
one decimal digit (whitespace/underscore tolerance of CPython is not
modelled; no claim depends on it). Failure (`None`) models the raised
`ValueError`. -/
def pyDigitsAux : Nat → List Char → Option Nat
  | acc, [] => some acc
  | acc, c :: rest =>
    if c.isDigit then pyDigitsAux (acc * 10 + (c.toNat - 48)) rest else none

def pyInt (s : List Char) : Option Int :=
  match s with
  | [] => none
  | '-' :: rest => if rest = [] then none else (pyDigitsAux 0 rest).map (fun n => -(n : Int))
  | _ => (pyDigitsAux 0 s).map (fun n => (n : Int))

/-! ## Connection.parse (src/imaparchiver/connection.py, lines 214-277)

The result of a successful parse: host, port (0 = default), username and
optional password (`none` models the interactive getpass prompt issued
when no password was part of the connection string).  `Except.error`
models `sys.exit(1)` after an error message. -/

structure ParseResult where
  host : List Char
  port : Int
  username : List Char
  password : Option (List Char)
deriving DecidableEq

/-- Models the `host_and_port` branch of `Connection.parse` (the `try`
block over the mailserver part): if no colon occurs the whole part is the
host and the port keeps its initial value 0; otherwise
`host = host_and_port.split(":")[:-1][0]` (the first fragment) and
`port = int(host_and_port.split(":")[-1:][0])` (after the last colon),
where a failing `int` conversion aborts (`none`). -/
def parseHostPort (hp : List Char) : Option (List Char × Int) :=
  if ':' ∈ hp then
    match pyInt ((pySplit ':' hp).getLastD []) with
    | some p => some (((pySplit ':' hp).dropLast).headD [], p)
    | none => none
  else some (hp, 0)

/-- Models the credential branch of `Connection.parse`: if no colon occurs
the whole part is the username and no password was given; otherwise
`username = user_and_password.split(":")[:-1][0]` (the first fragment) and
`password = user_and_password.split(":")[-1:][0]` (after the last colon).
The username component is an `Option` to mirror that the source checks
`if username is None` afterwards (a check that can never fire, since both
branches assign a string). -/
def parseUserPass (up : List Char) : Option (List Char) × Option (List Char) :=
  if ':' ∈ up then
    (some (((pySplit ':' up).dropLast).headD []), some ((pySplit ':' up).getLastD []))
  else (some up, none)

/-- Models `Connection.parse` (connection.py:214-277).  Splits on `@`: a
single fragment is the malformed-string fatal error; the host/port side is
the last fragment (`parts_at[-1:][0]`), the credential side is the join of
all earlier fragments when more than one `@` occurs, else the first
fragment.  Then the mailserver part is parsed (fatal on bad port number),
an empty host is fatal, the credential part is parsed, and a `None`
username would be fatal (dead branch).  A missing password surfaces as
`password = none` (interactive prompt in the source). -/
def parse (connect : List Char) : Except Unit ParseResult :=
  let parts_at := pySplit '@' connect
  if parts_at.length = 1 then .error ()
  else
    let host_and_port := parts_at.getLastD []
    let user_and_password :=
      if parts_at.length > 2 then pyJoin '@' parts_at.dropLast else parts_at.headD []
    match parseHostPort host_and_port with
    | none => .error ()
    | some (host, port) =>
      if host = [] then .error ()
      else
        match (parseUserPass user_and_password).1 with
        | none => .error ()
        | some username => .ok ⟨host, port, username, (parseUserPass user_and_password).2⟩

/-! ## Server commands

One constructor per imaplib call issued by the code paths under study.
`ids` arguments carry the comma-joined id string actually passed to
imaplib (`",".join(mail_ids)`). -/

inductive Op where
  | selectOp (mb : String)
  | expungeOp (mb : String)
  | deleteOp (mb : String)
  | createOp (mb : String)
  | subscribeOp (mb : String)
  | copyOp (ids : String) (dest : String)
  | storeOp (ids : String) (operation : String) (flags : String)
deriving DecidableEq

/-- Models `Mailbox.strip_path` (mailbox.py:190-203): strip every leading,
then every trailing, double-quote character. -/
def strip_path (p : String) : String :=
  String.mk (((p.toList.dropWhile (· = '"')).reverse.dropWhile (· = '"')).reverse)

/-- Models `Mailbox.quote_path` (mailbox.py:155-170): if the path contains
a space, add a leading quote unless the first character is already a quote,
then a trailing quote unless the last character is already a quote.
(Character access goes through `toList`, the executable view of a Python
string.) -/
def quote_path (p : String) : String :=
  if ¬ (p.toList.contains ' ') then p
  else
    let l1 := if p.toList.headD ' ' ≠ '"' then '"' :: p.toList else p.toList
    let l2 := if l1.getLastD ' ' ≠ '"' then l1 ++ ['"'] else l1
    String.mk l2

/-- Models `",".join(mail_ids)`. -/
def commaJoin (ids : List String) : String := String.intercalate "," ids

/-- Commands issued by `Mailbox.copy` (mailbox.py:52-63): guarded no-op on
an empty id list or empty destination, otherwise SELECT of this mailbox
followed by COPY of the comma-joined ids to the quoted destination. -/
def copyOps (mbName : String) (mail_ids : List String) (destination : String) : List Op :=
  if mail_ids.length = 0 ∨ destination.length = 0 then []
  else [Op.selectOp mbName, Op.copyOp (commaJoin mail_ids) (quote_path destination)]

/-- Commands issued by `Mailbox.store` (mailbox.py:205-218): SELECT then
STORE of the comma-joined ids. -/
def storeOps (mbName : String) (mail_ids : List String) (operation flags : String) : List Op :=
  [Op.selectOp mbName, Op.storeOp (commaJoin mail_ids) operation flags]

/-- Commands issued by `Mailbox.expunge` (mailbox.py:75-78): SELECT then
EXPUNGE. -/
def expungeOps (mbName : String) : List Op :=
  [Op.selectOp mbName, Op.expungeOp mbName]

/-- Commands issued by `Mailbox.delete` (mailbox.py:65-68): a bare
`select()` (imaplib defaults to INBOX) followed by DELETE of this path. -/
def deleteOps (mbName : String) : List Op :=
  [Op.selectOp "INBOX", Op.deleteOp mbName]

/-! ## Connection.create_mailbox (connection.py:56-86)

Server state is the list of existing mailbox names, recorded exactly as
the (possibly quoted) strings sent on the wire; `select` answers NO iff
the name is absent, and `create` adds it. -/

/-- The accumulated-path extension of one `create_mailbox` iteration
(connection.py:75-77): insert the delimiter when the accumulator is
non-empty, then append the particle.  The hierarchy delimiter reported by
the server is a single character (listing grammar `(<flags>) "<delim>"
<name>`), modelled as `Char`. -/
def createStepName (delim : Char) (mb p : String) : String :=
  if mb.length > 0 then mb ++ String.mk [delim] ++ p else mb ++ p

/-- The quoting of one `create_mailbox` iteration (connection.py:79-81):
wrap in double quotes when the accumulated path contains a space. -/
def createQuoted (mb1 : String) : String :=
  if mb1.toList.contains ' ' then "\"" ++ mb1 ++ "\"" else mb1

/-- One step per path particle of `create_mailbox`: extend the accumulated
path `mb`, quote it when it contains a space, SELECT it, CREATE it only
when the SELECT failed (mailbox absent), then SUBSCRIBE it. -/
def createParticles (delim : Char) (st : List String) (mb : String) :
    List String → List String × List Op
  | [] => (st, [])
  | p :: rest =>
    let q := createQuoted (createStepName delim mb p)
    let st1 := if q ∈ st then st else st ++ [q]
    let ops := (if q ∈ st then [Op.selectOp q] else [Op.selectOp q, Op.createOp q])
      ++ [Op.subscribeOp q]
    let r := createParticles delim st1 (createStepName delim mb p) rest
    (r.1, ops ++ r.2)

/-- Models `Connection.create_mailbox`: no-op on the empty path, otherwise
strip quotes from the path, split it on the delimiter and process each
increasingly-qualified prefix. -/
def create_mailbox (st : List String) (path : String) (delim : Char) : List String × List Op :=
  if path.length = 0 then (st, [])
  else createParticles delim st "" ((pySplit delim (strip_path path).toList).map String.mk)

/-! ## The clean command (command_line.py:52-76)

A mailbox as the command sees it: the listing name, the HasChildren flag
parsed from the listing, and the message counts — `live` messages without
the deleted flag and `flagged` messages carrying it.  SELECT reports
`live + flagged`; EXPUNGE removes the flagged ones permanently. -/

structure MbState where
  name : String
  children : Bool
  live : Nat
  flagged : Nat
deriving DecidableEq

/-- One iteration of the clean loop body (command_line.py:69-76) on one
mailbox: unconditionally `expunge()` (a SELECT plus EXPUNGE, issued in dry
run too), then `select()` for the mail count, and if the count is zero and
the listing showed no children, DELETE the mailbox — the DELETE alone being
guarded by the dry-run flag.  Returns the issued commands and the mailbox's
state afterwards (`none` when it was deleted). -/
def cleanStep (dryRun : Bool) (m : MbState) : List Op × Option MbState :=
  let afterExpunge : MbState := { m with flagged := 0 }
  let mailCount := afterExpunge.live + afterExpunge.flagged
  let ops := expungeOps m.name ++ [Op.selectOp m.name]
  if mailCount == 0 && m.children == false then
    if dryRun = false then (ops ++ deleteOps m.name, none)
    else (ops, some afterExpunge)
  else (ops, some afterExpunge)

/-- The clean command's single loop over the listed subtree
(command_line.py:67-76); the source iterates `for mb in sorted(mbs)`, so
the input list is the listing in lexicographic name order.  Returns all
issued commands and the surviving mailboxes. -/
def cleanRun (dryRun : Bool) : List MbState → List Op × List MbState
  | [] => ([], [])
  | m :: rest =>
    let s := cleanStep dryRun m
    let r := cleanRun dryRun rest
    (s.1 ++ r.1, s.2.toList ++ r.2)

/-- The DELETE targets appearing in a command trace, in order. -/
def deletions (ops : List Op) : List String :=
  ops.filterMap (fun op => match op with | .deleteOp n => some n | _ => none)

/-! ## The move command, per-mailbox mutation loop (command_line.py:232-246) -/

/-- The archive mailbox name (command_line.py:235-237):
`mailbox_to + delimiter + str(year) + delimiter + mailbox`, wrapped in
quotes when it contains a space. -/
def archivePath (mailboxTo : String) (delim : Char) (y : Int) (mb : String) : String :=
  let p := mailboxTo ++ String.mk [delim] ++ toString y ++ String.mk [delim] ++ mb
  if p.toList.contains ' ' then "\"" ++ p ++ "\"" else p

/-- The mutations for one year bucket (command_line.py:242-246): when not
in dry run, recursively create the archive mailbox, copy the bucket's ids
into it, flag them deleted, and expunge the source mailbox.  The server
mailbox-set state is threaded through `create_mailbox`. -/
def moveYearBucket (st : List String) (delim : Char) (mailboxTo mbName : String)
    (y : Int) (ids : List String) (dryRun : Bool) : List String × List Op :=
  let archive := archivePath mailboxTo delim y mbName
  if dryRun = false then
    let c := create_mailbox st archive delim
    (c.1, c.2 ++ copyOps mbName ids archive
              ++ storeOps mbName ids "+FLAGS" "(\\Deleted)"
              ++ expungeOps mbName)
  else (st, [])

/-- The per-mailbox loop of the move command (command_line.py:233-246):
for every year bucket of the inspection result (in iteration order), if
the year is before the cutoff, run the bucket mutations. -/
def moveMailbox (st : List String) (delim : Char) (mailboxTo mbName : String)
    (perYear : List (Int × List String)) (year : Int) (dryRun : Bool) :
    List String × List Op :=
  perYear.foldl
    (fun acc yb =>
      if yb.1 < year then
        let r := moveYearBucket acc.1 delim mailboxTo mbName yb.1 yb.2 dryRun
        (r.1, acc.2 ++ r.2)
      else acc)
    (st, [])

/-! ## Mailbox.inspect chunking (mailbox.py:122-141)

The loop `i = 0; m = mails_seen[i:i+1000]; while m: ...; i += 1000`
processes the slices `l[0:1000], l[1000:2000], ...`.  The fuel argument is
an artifact making the recursion structural; `seenChunks` supplies enough
fuel for the whole list. -/

def chunksOf1000 (fuel : Nat) : List α → List (List α)
  | l =>
    match fuel with
    | 0 => []
    | fuel + 1 => if l.isEmpty then [] else l.take 1000 :: chunksOf1000 fuel (l.drop 1000)

def seenChunks (l : List α) : List (List α) := chunksOf1000 (l.length + 1) l

/-! ## Mailbox._year_from_mail_header (mailbox.py:220-234) and year buckets

Header lines are byte strings, modelled as `List Char`.  The call
`email.utils.parsedate(str(mh)[8:])[0]` is modelled by an oracle
`pd : List Char → Option Int` applied to `reprTail mh`: `str(mh)` renders
the bytes as `b"..."` so that index 8 lands 6 characters into the line,
and a trailing apostrophe is appended (byte escaping inside the repr is
abstracted into the oracle).  `pd _ = none` covers both `parsedate`
returning `None` (so the `[0]` subscript raises) and any parse exception;
the `except` branch writes a warning. -/

def reprTail (mh : List Char) : List Char := mh.drop 6 ++ [Char.ofNat 39]

/-- Models `Mailbox._year_from_mail_header`: scan the header lines for the
first one starting with `Date:`; return its parsed year, or `none` with a
warning (second component `true`) when parsing fails.  When no line starts
with `Date:` the loop falls through and the function returns `None`
without writing anything (warning component `false`). -/
def yearFromMailHeader (pd : List Char → Option Int) :
    List (List Char) → Option Int × Bool
  | [] => (none, false)
  | mh :: rest =>
    if List.isPrefixOf ("Date:".toList) mh then
      match pd (reprTail mh) with
      | some y => (some y, false)
      | none => (none, true)
    else yearFromMailHeader pd rest

/-- Models the bucket insertion of `Mailbox.inspect` (mailbox.py:135-138):
Python dicts keep insertion order, so buckets are an association list; a
new year is appended at the end, an existing year has the id appended to
its list. -/
def addToBucket (buckets : List (Int × List String)) (y : Int) (mailId : String) :
    List (Int × List String) :=
  if buckets.any (fun b => b.1 == y) then
    buckets.map (fun b => if b.1 == y then (b.1, b.2 ++ [mailId]) else b)
  else buckets ++ [(y, [mailId])]

/-- Models the per-message classification loop of `Mailbox.inspect`
(mailbox.py:129-138) over one fetched batch of (id, header lines) pairs:
each message's year is taken from its headers and, only when a year was
found, the id is added to that year's bucket; a message without a year is
skipped and the loop continues. -/
def inspectBuckets (pd : List Char → Option Int)
    (batch : List (String × List (List Char))) : List (Int × List String) :=
  batch.foldl
    (fun buckets msg =>
      match (yearFromMailHeader pd msg.2).1 with
      | some y => addToBucket buckets y msg.1
      | none => buckets)
    []

/-- A concrete date-parsing oracle for evaluation: it recognises exactly
the tail produced by the header line `Date: D` (the character `D` followed
by the apostrophe that `str(bytes)[8:]` leaves behind) as year 2019 and
fails on everything else. -/
def pd0 : List Char → Option Int :=
  fun s => if s = [Char.ofNat 68, Char.ofNat 39] then some 2019 else none

/-! ## Lemmas about `pySplit` -/

theorem pySplit_ne_nil (sep : Char) (s : List Char) : pySplit sep s ≠ [] := by
  cases s with
  | nil => simp [pySplit]
  | cons c rest =>
    unfold pySplit
    cases h : pySplit sep rest with
    | nil => simp
    | cons g gs => by_cases hc : c = sep <;> simp [hc]

theorem pySplit_of_not_mem {sep : Char} :
    ∀ {s : List Char}, sep ∉ s → pySplit sep s = [s] := by
  intro s
  induction s with
  | nil => intro _; rfl
  | cons c rest ih =>
    intro h
    have hc : ¬ c = sep := fun e => h (e ▸ List.mem_cons_self c rest)
    have hr : sep ∉ rest := fun e => h (List.mem_cons_of_mem c e)
    unfold pySplit
    rw [ih hr]
    simp [hc]

theorem pySplit_append {sep : Char} :
    ∀ {xs : List Char} (ys : List Char), sep ∉ xs →
      pySplit sep (xs ++ sep :: ys) = xs :: pySplit sep ys := by
  intro xs
  induction xs with
  | nil =>
    intro ys _
    show pySplit sep (sep :: ys) = [] :: pySplit sep ys
    simp only [pySplit]
    cases h : pySplit sep ys with
    | nil => exact absurd h (pySplit_ne_nil sep ys)
    | cons g gs => simp
  | cons c rest ih =>
    intro ys h
    have hc : ¬ c = sep := fun e => h (e ▸ List.mem_cons_self c rest)
    have hr : sep ∉ rest := fun e => h (List.mem_cons_of_mem c e)
    show pySplit sep (c :: (rest ++ sep :: ys)) = (c :: rest) :: pySplit sep ys
    simp only [pySplit]
    rw [ih ys hr]
    simp [hc]

theorem parseHostPort_no_colon {hp : List Char} (h : ':' ∉ hp) :
    parseHostPort hp = some (hp, 0) := by
  simp [parseHostPort, h]

theorem parseHostPort_two_colons {h1 h2 h3 : List Char} {n : Int}
    (h1c : ':' ∉ h1) (h2c : ':' ∉ h2) (h3c : ':' ∉ h3)
    (hint : pyInt h3 = some n) :
    parseHostPort (h1 ++ ':' :: (h2 ++ ':' :: h3)) = some (h1, n) := by
  have hmem : (':' : Char) ∈ h1 ++ ':' :: (h2 ++ ':' :: h3) :=
    List.mem_append.mpr (Or.inr (List.mem_cons_self _ _))
  have hsplit : pySplit ':' (h1 ++ ':' :: (h2 ++ ':' :: h3)) = [h1, h2, h3] := by
    rw [pySplit_append (h2 ++ ':' :: h3) h1c, pySplit_append h3 h2c, pySplit_of_not_mem h3c]
  simp [parseHostPort, hmem, hsplit, hint]

theorem parseUserPass_no_colon {up : List Char} (h : ':' ∉ up) :
    parseUserPass up = (some up, none) := by
  simp [parseUserPass, h]

theorem parseUserPass_two_colons {u1 u2 u3 : List Char}
    (u1c : ':' ∉ u1) (u2c : ':' ∉ u2) (u3c : ':' ∉ u3) :
    parseUserPass (u1 ++ ':' :: (u2 ++ ':' :: u3)) = (some u1, some u3) := by
  have hmem : (':' : Char) ∈ u1 ++ ':' :: (u2 ++ ':' :: u3) :=
    List.mem_append.mpr (Or.inr (List.mem_cons_self _ _))
  have hsplit : pySplit ':' (u1 ++ ':' :: (u2 ++ ':' :: u3)) = [u1, u2, u3] := by
    rw [pySplit_append (u2 ++ ':' :: u3) u1c, pySplit_append u3 u2c, pySplit_of_not_mem u3c]
  simp [parseUserPass, hmem, hsplit]

/-- Evaluation of `parse` on a connection string with exactly one `@`
separating a credential part from a host part. -/
theorem parse_two_parts {cred hostpart : List Char}
    (hc : '@' ∉ cred) (hh : '@' ∉ hostpart) :
    parse (cred ++ '@' :: hostpart) =
      match parseHostPort hostpart with
      | none => .error ()
      | some (host, port) =>
        if host = [] then Except.error ()
        else
          match (parseUserPass cred).1 with
          | none => .error ()
          | some username => .ok ⟨host, port, username, (parseUserPass cred).2⟩ := by
  have hsplit : pySplit '@' (cred ++ '@' :: hostpart) = [cred, hostpart] := by
    rw [pySplit_append hostpart hc, pySplit_of_not_mem hh]
  simp [parse, hsplit]

/-- C5, counterexample: on the connection string `a:b:c@h` the code
returns username `a` — everything before the *first* colon of the
credential part — not `a:b` as the claim (everything before the last
colon) would require. -/
theorem c5_counterexample :
    parse ("a:b:c@h".toList) = .ok ⟨"h".toList, 0, "a".toList, some ("c".toList)⟩
    ∧ "a".toList ≠ "a:b".toList := by
  exact ⟨rfl, by decide⟩

/-- C5 (amended): `Connection.parse` splits the connection string at the
last `@` (the username may contain `@`), but each side is then split
asymmetrically: a credential part with two colons yields the fragment
before the *first* colon as username and the fragment after the last colon
as password, and a host part with two colons yields the fragment before
the *first* colon as host and the number after the last colon as port. -/
theorem c5_parse_first_colon
    (u1 u2 u3 hst u h1 h2 h3 : List Char) (n : Int)
    (hu1a : '@' ∉ u1) (hu2a : '@' ∉ u2) (hu3a : '@' ∉ u3)
    (hu1c : ':' ∉ u1) (hu2c : ':' ∉ u2) (hu3c : ':' ∉ u3)
    (hha : '@' ∉ hst) (hhc : ':' ∉ hst) (hne : hst ≠ [])
    (hua : '@' ∉ u) (huc : ':' ∉ u)
    (hh1a : '@' ∉ h1) (hh2a : '@' ∉ h2) (hh3a : '@' ∉ h3)
    (hh1c : ':' ∉ h1) (hh2c : ':' ∉ h2) (hh3c : ':' ∉ h3)
    (hn1 : h1 ≠ []) (hint : pyInt h3 = some n) :
    parse ((u1 ++ ':' :: (u2 ++ ':' :: u3)) ++ '@' :: hst)
      = .ok ⟨hst, 0, u1, some u3⟩
    ∧ parse (u ++ '@' :: (h1 ++ ':' :: (h2 ++ ':' :: h3)))
      = .ok ⟨h1, n, u, none⟩ := by
  constructor
  · have hcred : ('@' : Char) ∉ u1 ++ ':' :: (u2 ++ ':' :: u3) := by
      intro hmem
      rcases List.mem_append.mp hmem with hx | hx
      · exact hu1a hx
      · rcases List.mem_cons.mp hx with hx | hx
        · exact absurd hx (by decide)
        · rcases List.mem_append.mp hx with hy | hy
          · exact hu2a hy
          · rcases List.mem_cons.mp hy with hy | hy
            · exact absurd hy (by decide)
            · exact hu3a hy
    rw [parse_two_parts hcred hha, parseHostPort_no_colon hhc,
        parseUserPass_two_colons hu1c hu2c hu3c]
    simp [hne]
  · have hhostpart : ('@' : Char) ∉ h1 ++ ':' :: (h2 ++ ':' :: h3) := by
      intro hmem
      rcases List.mem_append.mp hmem with hx | hx
      · exact hh1a hx
      · rcases List.mem_cons.mp hx with hx | hx
        · exact absurd hx (by decide)
        · rcases List.mem_append.mp hx with hy | hy
          · exact hh2a hy
          · rcases List.mem_cons.mp hy with hy | hy
            · exact absurd hy (by decide)
            · exact hh3a hy
    rw [parse_two_parts hua hhostpart, parseHostPort_two_colons hh1c hh2c hh3c hint,
        parseUserPass_no_colon huc]
    simp [hn1]

/-- C5 witness: the amended splitting behaviour at the concrete strings
`a:b:c@h` and `u@x:y:7`. -/
theorem c5_witness :
    parse (("a".toList ++ ':' :: ("b".toList ++ ':' :: "c".toList)) ++ '@' :: "h".toList)
      = .ok ⟨"h".toList, 0, "a".toList, some ("c".toList)⟩
    ∧ parse ("u".toList ++ '@' :: ("x".toList ++ ':' :: ("y".toList ++ ':' :: "7".toList)))
      = .ok ⟨"x".toList, 7, "u".toList, none⟩ :=
  c5_parse_first_colon "a".toList "b".toList "c".toList "h".toList "u".toList
    "x".toList "y".toList "7".toList 7
    (by decide) (by decide) (by decide) (by decide) (by decide) (by decide)
    (by decide) (by decide) (by decide) (by decide) (by decide)
    (by decide) (by decide) (by decide) (by decide) (by decide) (by decide)
    (by decide) (by decide)

/-- C6: the empty-user connection string `@example.com` is *not* rejected:
`parse` succeeds with an empty username (the source's `if username is None`
check can never fire, so the process goes on to prompt for a password and
attempt the connection), while a string without `@` and a string with an
empty host are rejected as the claim states. -/
theorem c6_empty_user_accepted :
    parse ("@example.com".toList) = .ok ⟨"example.com".toList, 0, [], none⟩
    ∧ parse ("user".toList) = .error ()
    ∧ parse ("user@".toList) = .error () :=
  ⟨rfl, rfl, rfl⟩

/-- C1: with two year buckets below the cutoff (2019 and 2021, cutoff
2023) the move loop issues EXPUNGE on the source mailbox *inside* the
per-year loop — at position 14 of the trace, before the second bucket's
COPY at position 24 — and issues two expunges in total, contradicting the
claim that expunge is issued only once, after the last bucket. -/
theorem c1_expunge_inside_year_loop :
    ((moveMailbox [] '.' "Archive" "Work"
        [(2019, ["1", "2", "3", "4"]), (2021, ["9", "10"])] 2023 false).2).length = 29
    ∧ ((moveMailbox [] '.' "Archive" "Work"
        [(2019, ["1", "2", "3", "4"]), (2021, ["9", "10"])] 2023 false).2).get? 14
      = some (Op.expungeOp "Work")
    ∧ ((moveMailbox [] '.' "Archive" "Work"
        [(2019, ["1", "2", "3", "4"]), (2021, ["9", "10"])] 2023 false).2).get? 24
      = some (Op.copyOp "9,10" "Archive.2021.Work")
    ∧ ((moveMailbox [] '.' "Archive" "Work"
        [(2019, ["1", "2", "3", "4"]), (2021, ["9", "10"])] 2023 false).2).countP
        (fun op => match op with | .expungeOp _ => true | _ => false) = 2 := by
  refine ⟨by decide, by decide, by decide, by decide⟩

/-- C2: in dry-run mode the clean command still issues EXPUNGE (the
`mbs[mb].expunge()` call is not guarded by the dry-run flag): on a mailbox
holding two messages flagged deleted, the dry run's trace contains the
mutating EXPUNGE command and the remote state afterwards differs from the
state before.  The move command, by contrast, issues no command at all for
its buckets under dry run. -/
theorem c2_dry_run_clean_mutates :
    cleanRun true [⟨"Work", false, 5, 2⟩]
      = ([Op.selectOp "Work", Op.expungeOp "Work", Op.selectOp "Work"],
         [⟨"Work", false, 5, 0⟩])
    ∧ (⟨"Work", false, 5, 0⟩ : MbState) ≠ ⟨"Work", false, 5, 2⟩
    ∧ (moveMailbox [] '.' "Archive" "Work" [(2019, ["1", "2"])] 2023 true).2 = [] :=
  ⟨rfl, by decide, by decide⟩

/-- C3, counterexample: `Parent` is listed with HasChildren and zero
messages, its only child `Parent.Old` is empty and childless.  One
invocation of clean deletes `Parent.Old` but terminates with `Parent`
still present — there is no second pass that would pick up the
now-childless parent. -/
theorem c3_counterexample :
    (cleanRun false [⟨"Parent", true, 0, 0⟩, ⟨"Parent.Old", false, 0, 0⟩]).2
      = [⟨"Parent", true, 0, 0⟩]
    ∧ deletions (cleanRun false [⟨"Parent", true, 0, 0⟩, ⟨"Parent.Old", false, 0, 0⟩]).1
      = ["Parent.Old"] :=
  ⟨rfl, rfl⟩

/-- C4, counterexample: the mailbox `Top` contains no occurrence of the
delimiter `.` in its name, has zero messages and no children — and clean
deletes it anyway: there is no delimiter guard in the loop. -/
theorem c4_counterexample :
    ("Top".toList.contains '.') = false
    ∧ Op.deleteOp "Top" ∈ (cleanRun false [⟨"Top", false, 0, 0⟩]).1 := by
  exact ⟨by decide, by decide⟩

/-- C10: `Mailbox.copy` with an empty id list or an empty destination
returns before selecting the mailbox or issuing any command — the trace is
empty, so the remote state is untouched. -/
theorem c10_copy_guard (mbName : String) (mail_ids : List String) (destination : String)
    (h : mail_ids = [] ∨ destination = "") :
    copyOps mbName mail_ids destination = [] := by
  rcases h with h | h
  · subst h
    simp [copyOps]
  · subst h
    simp [copyOps]

/-- C10 witness: both guard conditions at concrete inputs. -/
theorem c10_witness :
    copyOps "Work" [] "Archive" = [] ∧ copyOps "Work" ["1"] "" = [] :=
  ⟨c10_copy_guard "Work" [] "Archive" (Or.inl rfl),
   c10_copy_guard "Work" ["1"] "" (Or.inr rfl)⟩

/-- `deletions` distributes over trace concatenation. -/
theorem deletions_append (a b : List Op) :
    deletions (a ++ b) = deletions a ++ deletions b := by
  simp [deletions]

/-- Unfolding of one clean iteration. -/
theorem cleanRun_cons (d : Bool) (m : MbState) (rest : List MbState) :
    cleanRun d (m :: rest)
      = ((cleanStep d m).1 ++ (cleanRun d rest).1,
         (cleanStep d m).2.toList ++ (cleanRun d rest).2) := rfl

/-- C3 (amended): a single invocation of clean performs exactly one pass
over the listed subtree: it deletes precisely the nodes whose post-expunge
message count is zero and whose listing flags show no children, and every
other node survives (with its deleted-flagged messages expunged).  There
is no second pass, so a parent made childless by a deletion in the pass is
not reconsidered in the same invocation. -/
theorem c3_clean_single_pass (mbs : List MbState) :
    deletions (cleanRun false mbs).1
      = (mbs.filter (fun m => m.live == 0 && m.children == false)).map MbState.name
    ∧ (cleanRun false mbs).2
      = (mbs.filter (fun m => !(m.live == 0 && m.children == false))).map
          (fun m => { m with flagged := 0 }) := by
  induction mbs with
  | nil => exact ⟨rfl, rfl⟩
  | cons m rest ih =>
    obtain ⟨nm, ch, lv, fl⟩ := m
    rw [cleanRun_cons]
    cases ch with
    | true =>
      have hstep : cleanStep false ⟨nm, true, lv, fl⟩
          = ([Op.selectOp nm, Op.expungeOp nm, Op.selectOp nm], some ⟨nm, true, lv, 0⟩) := by
        simp [cleanStep, expungeOps]
      rw [hstep]
      constructor
      · rw [deletions_append, ih.1]
        simp [deletions, List.filter_cons]
      · rw [ih.2]
        simp [List.filter_cons]
    | false =>
      by_cases h1 : lv = 0
      · subst h1
        have hstep : cleanStep false ⟨nm, false, 0, fl⟩
            = ([Op.selectOp nm, Op.expungeOp nm, Op.selectOp nm,
                Op.selectOp "INBOX", Op.deleteOp nm], none) := by
          simp [cleanStep, expungeOps, deleteOps]
        rw [hstep]
        constructor
        · rw [deletions_append, ih.1]
          simp [deletions, List.filter_cons]
        · rw [ih.2]
          simp [List.filter_cons]
      · have hstep : cleanStep false ⟨nm, false, lv, fl⟩
            = ([Op.selectOp nm, Op.expungeOp nm, Op.selectOp nm], some ⟨nm, false, lv, 0⟩) := by
          simp [cleanStep, expungeOps, h1]
        rw [hstep]
        constructor
        · rw [deletions_append, ih.1]
          simp [deletions, List.filter_cons, h1]
        · rw [ih.2]
          simp [List.filter_cons, h1]

/-- C3 witness: the single-pass characterisation evaluated on a two-node
subtree. -/
theorem c3_witness :
    deletions (cleanRun false [⟨"A", false, 0, 0⟩, ⟨"B", true, 0, 0⟩]).1 = ["A"] := by
  have h := c3_clean_single_pass [⟨"A", false, 0, 0⟩, ⟨"B", true, 0, 0⟩]
  exact h.1.trans (by rfl)

/-- C4 (amended): clean's deletion test never looks at the node's name:
every visited node with zero post-expunge messages and no children is
deleted, whether or not its name contains the delimiter — including
top-of-tree nodes. -/
theorem c4_clean_ignores_delimiter (mbs : List MbState) (m : MbState)
    (hm : m ∈ mbs) (hl : m.live = 0) (hc : m.children = false) :
    Op.deleteOp m.name ∈ (cleanRun false mbs).1 := by
  induction mbs with
  | nil => cases hm
  | cons x rest ih =>
    rcases List.mem_cons.mp hm with h | h
    · subst h
      have hstep : Op.deleteOp m.name ∈ (cleanStep false m).1 := by
        simp [cleanStep, hl, hc, expungeOps, deleteOps]
      simp [cleanRun]
      exact Or.inl hstep
    · simp [cleanRun]
      exact Or.inr (ih h)

/-- C4 witness: clean deletes even the delimiter-free top node `INBOX`
when it is empty and childless. -/
theorem c4_witness :
    Op.deleteOp "INBOX" ∈ (cleanRun false [⟨"INBOX", false, 0, 0⟩]).1 :=
  c4_clean_ignores_delimiter [⟨"INBOX", false, 0, 0⟩] ⟨"INBOX", false, 0, 0⟩
    (List.mem_singleton.mpr rfl) rfl rfl

/-- C7, counterexample: a message whose headers contain no `Date:` line is
placed in no bucket and processing continues, but *no warning is emitted*
(the loop in `_year_from_mail_header` falls through and returns `None`
silently) — the claim that a warning is emitted for a missing Date header
fails.  The second message of the batch is still classified. -/
theorem c7_counterexample :
    yearFromMailHeader pd0 ["From: A".toList] = (none, false)
    ∧ inspectBuckets pd0 [("1", ["From: A".toList]), ("2", ["Date: D".toList])]
      = [(2019, ["2"])] := by
  exact ⟨by decide, by decide⟩

/-- C7 (amended): a seen message whose headers contain no `Date:` line is
excluded from every year bucket and processing continues, but silently
(no warning); a message whose first `Date:` line fails to parse is
excluded with a warning; in both cases the message alters no bucket and
the rest of the batch is processed unchanged. -/
theorem c7_date_header_handling (pd : List Char → Option Int)
    (headers pre rest : List (List Char)) (mh : List Char)
    (mailId mailId2 : String) (batch : List (String × List (List Char)))
    (hnone : ∀ x ∈ headers, ¬ ("Date:".toList <+: x))
    (hpre : ∀ x ∈ pre, ¬ ("Date:".toList <+: x))
    (hdate : "Date:".toList <+: mh)
    (hbad : pd (reprTail mh) = none) :
    yearFromMailHeader pd headers = (none, false)
    ∧ yearFromMailHeader pd (pre ++ mh :: rest) = (none, true)
    ∧ inspectBuckets pd ((mailId, headers) :: batch) = inspectBuckets pd batch
    ∧ inspectBuckets pd ((mailId2, pre ++ mh :: rest) :: batch) = inspectBuckets pd batch := by
  have part1 : yearFromMailHeader pd headers = (none, false) := by
    induction headers with
    | nil => rfl
    | cons x xs ih =>
      have hx : ¬ (['D', 'a', 't', 'e', ':'] <+: x) := by
        simpa using hnone x (List.mem_cons_self x xs)
      have hxs : ∀ y ∈ xs, ¬ ("Date:".toList <+: y) :=
        fun y hy => hnone y (List.mem_cons_of_mem x hy)
      simp [yearFromMailHeader, hx, ih hxs]
  have part2 : yearFromMailHeader pd (pre ++ mh :: rest) = (none, true) := by
    have hdm : ['D', 'a', 't', 'e', ':'] <+: mh := by simpa using hdate
    induction pre with
    | nil => simp [yearFromMailHeader, hdm, hbad]
    | cons x xs ih =>
      have hx : ¬ (['D', 'a', 't', 'e', ':'] <+: x) := by
        simpa using hpre x (List.mem_cons_self x xs)
      have hxs : ∀ y ∈ xs, ¬ ("Date:".toList <+: y) :=
        fun y hy => hpre y (List.mem_cons_of_mem x hy)
      simp [yearFromMailHeader, hx, ih hxs]
  refine ⟨part1, part2, ?_, ?_⟩
  · simp [inspectBuckets, part1]
  · simp [inspectBuckets, part2]

/-- C7 witness: the amended header handling at concrete headers and a
concrete oracle. -/
theorem c7_witness :
    yearFromMailHeader pd0 ["X-Foo: 1".toList] = (none, false)
    ∧ yearFromMailHeader pd0 ["X-Foo: 1".toList, "Date: Q".toList] = (none, true)
    ∧ inspectBuckets pd0 [("8", ["X-Foo: 1".toList]), ("9", ["Date: D".toList])]
      = inspectBuckets pd0 [("9", ["Date: D".toList])]
    ∧ inspectBuckets pd0
        [("7", ["X-Foo: 1".toList, "Date: Q".toList]), ("9", ["Date: D".toList])]
      = inspectBuckets pd0 [("9", ["Date: D".toList])] :=
  c7_date_header_handling pd0 ["X-Foo: 1".toList] ["X-Foo: 1".toList] []
    ("Date: Q".toList) "8" "7" [("9", ["Date: D".toList])]
    (by decide) (by decide) (by decide) (by decide)

/-- With enough fuel, concatenating the successive 1000-slices rebuilds
the original list. -/
theorem chunksOf1000_join {α : Type} :
    ∀ (fuel : Nat) (l : List α), l.length < fuel → (chunksOf1000 fuel l).flatten = l := by
  intro fuel
  induction fuel with
  | zero => intro l h; exact absurd h (Nat.not_lt_zero _)
  | succ fuel ih =>
    intro l h
    cases l with
    | nil => rfl
    | cons a t =>
      have hlt : ((a :: t).drop 1000).length < fuel := by
        have h1 : (a :: t).length ≤ fuel := Nat.lt_succ_iff.mp h
        have h2 : ((a :: t).drop 1000).length < (a :: t).length := by
          rw [List.length_drop]
          exact Nat.sub_lt (by simp) (by norm_num)
        exact Nat.lt_of_lt_of_le h2 h1
      show ((a :: t).take 1000 :: chunksOf1000 fuel ((a :: t).drop 1000)).flatten = a :: t
      rw [List.flatten_cons, ih _ hlt, List.take_append_drop]

/-- Every slice is made of elements of the original list. -/
theorem chunksOf1000_subset {α : Type} :
    ∀ (fuel : Nat) (l c : List α), c ∈ chunksOf1000 fuel l → ∀ x ∈ c, x ∈ l := by
  intro fuel
  induction fuel with
  | zero => intro l c hc; cases hc
  | succ fuel ih =>
    intro l c hc x hx
    cases l with
    | nil => cases hc
    | cons a t =>
      have hc2 : c ∈ (a :: t).take 1000 :: chunksOf1000 fuel ((a :: t).drop 1000) := hc
      rcases List.mem_cons.mp hc2 with h | h
      · exact List.take_subset 1000 (a :: t) (h ▸ hx)
      · exact List.drop_subset 1000 (a :: t) (ih _ c h x hx)

/-- On a duplicate-free list, each element lies in exactly one slice. -/
theorem chunksOf1000_countP {α : Type} [DecidableEq α] :
    ∀ (fuel : Nat) (l : List α), l.length < fuel → l.Nodup →
      ∀ x ∈ l, (chunksOf1000 fuel l).countP (fun c => decide (x ∈ c)) = 1 := by
  intro fuel
  induction fuel with
  | zero => intro l h; exact absurd h (Nat.not_lt_zero _)
  | succ fuel ih =>
    intro l h hnd x hx
    cases l with
    | nil => cases hx
    | cons a t =>
      have hlt : ((a :: t).drop 1000).length < fuel := by
        have h1 : (a :: t).length ≤ fuel := Nat.lt_succ_iff.mp h
        have h2 : ((a :: t).drop 1000).length < (a :: t).length := by
          rw [List.length_drop]
          exact Nat.sub_lt (by simp) (by norm_num)
        exact Nat.lt_of_lt_of_le h2 h1
      have hsplit : (a :: t).take 1000 ++ (a :: t).drop 1000 = a :: t :=
        List.take_append_drop 1000 (a :: t)
      have hnd2 : ((a :: t).take 1000 ++ (a :: t).drop 1000).Nodup := by
        rw [hsplit]; exact hnd
      obtain ⟨hndTake, hndDrop, hdisj⟩ := List.nodup_append.mp hnd2
      have hx2 : x ∈ (a :: t).take 1000 ++ (a :: t).drop 1000 := by
        rw [hsplit]; exact hx
      show ((a :: t).take 1000 :: chunksOf1000 fuel ((a :: t).drop 1000)).countP
        (fun c => decide (x ∈ c)) = 1
      rw [List.countP_cons]
      rcases List.mem_append.mp hx2 with hmem | hmem
      · have hnot : x ∉ (a :: t).drop 1000 := hdisj hmem
        have hzero : (chunksOf1000 fuel ((a :: t).drop 1000)).countP
            (fun c => decide (x ∈ c)) = 0 := by
          apply List.countP_eq_zero.mpr
          intro c hc
          simp only [decide_eq_true_eq]
          exact fun hxc => hnot (chunksOf1000_subset fuel _ c hc x hxc)
        rw [hzero, if_pos (decide_eq_true hmem)]
      · have hnot : x ∉ (a :: t).take 1000 := fun hxt => hdisj hxt hmem
        have hone := ih _ hlt hndDrop x hmem
        rw [hone, if_neg (fun hd => hnot (of_decide_eq_true hd))]

/-- C8: splitting the seen-id list into successive chunks of 1000 as the
inspect loop does and concatenating the chunks back yields exactly the
original list — order and id set are preserved — and when the ids are
duplicate-free every id lies in exactly one chunk. -/
theorem c8_chunk_roundtrip (l : List String) :
    (seenChunks l).flatten = l
    ∧ (l.Nodup → ∀ x ∈ l, (seenChunks l).countP (fun c => decide (x ∈ c)) = 1) := by
  constructor
  · exact chunksOf1000_join _ l (Nat.lt_succ_self _)
  · intro hnd x hx
    exact chunksOf1000_countP _ l (Nat.lt_succ_self _) hnd x hx

/-- C8 witness: the round trip at a concrete id batch. -/
theorem c8_witness :
    (seenChunks ["1", "2", "3"]).flatten = ["1", "2", "3"]
    ∧ (seenChunks ["1", "2", "3"]).countP (fun c => decide (("2" : String) ∈ c)) = 1 :=
  ⟨(c8_chunk_roundtrip ["1", "2", "3"]).1,
   (c8_chunk_roundtrip ["1", "2", "3"]).2 (by decide) "2" (by decide)⟩

/-- Growing the server state: `createParticles` never removes a mailbox. -/
theorem createParticles_mono (delim : Char) :
    ∀ (ps st : List String) (mb x : String),
      x ∈ st → x ∈ (createParticles delim st mb ps).1 := by
  intro ps
  induction ps with
  | nil => intro st mb x hx; exact hx
  | cons p rest ih =>
    intro st mb x hx
    simp only [createParticles]
    apply ih
    by_cases hq : createQuoted (createStepName delim mb p) ∈ st
    · simpa [hq] using hx
    · simp [hq]
      exact Or.inl hx

/-- Running `createParticles` a second time from the state the first run
produced changes nothing and issues no CREATE. -/
theorem createParticles_idem (delim : Char) :
    ∀ (ps st : List String) (mb : String),
      (createParticles delim (createParticles delim st mb ps).1 mb ps).1
          = (createParticles delim st mb ps).1
      ∧ ∀ name, Op.createOp name ∉ (createParticles delim (createParticles delim st mb ps).1 mb ps).2 := by
  intro ps
  induction ps with
  | nil =>
    intro st mb
    exact ⟨rfl, fun name h => by cases h⟩
  | cons p rest ih =>
    intro st mb
    set q := createQuoted (createStepName delim mb p) with hqdef
    set mb1 := createStepName delim mb p with hmb1def
    set st1 := if q ∈ st then st else st ++ [q] with hst1def
    have hq1 : q ∈ st1 := by
      by_cases hq : q ∈ st
      · simp [hst1def, hq]
      · simp [hst1def, hq]
    have hS : q ∈ (createParticles delim st1 mb1 rest).1 :=
      createParticles_mono delim rest st1 mb1 q hq1
    have hfirst : createParticles delim st mb (p :: rest)
        = ((createParticles delim st1 mb1 rest).1,
           ((if q ∈ st then [Op.selectOp q] else [Op.selectOp q, Op.createOp q])
              ++ [Op.subscribeOp q])
             ++ (createParticles delim st1 mb1 rest).2) := rfl
    constructor
    · rw [hfirst]
      show (createParticles delim (createParticles delim st1 mb1 rest).1 mb (p :: rest)).1
          = (createParticles delim st1 mb1 rest).1
      simp only [createParticles, hS, if_pos]
      exact (ih st1 mb1).1
    · intro name
      rw [hfirst]
      show Op.createOp name
          ∉ (createParticles delim (createParticles delim st1 mb1 rest).1 mb (p :: rest)).2
      simp only [createParticles, hS, if_pos]
      simp [List.mem_append]
      exact (ih st1 mb1).2 name

/-- C9: recursive mailbox creation is idempotent — a second invocation of
`create_mailbox` on the same path from the state the first one produced
leaves the state unchanged (no duplicate mailbox) and issues no CREATE
command (every per-prefix SELECT existence check now succeeds). -/
theorem c9_create_mailbox_idempotent (st : List String) (path : String) (delim : Char) :
    (create_mailbox (create_mailbox st path delim).1 path delim).1
        = (create_mailbox st path delim).1
    ∧ ∀ name, Op.createOp name ∉ (create_mailbox (create_mailbox st path delim).1 path delim).2 := by
  by_cases h : path.length = 0
  · simp [create_mailbox, h]
  · simp only [create_mailbox, if_neg h]
    exact createParticles_idem delim _ st ""

/-- C9 witness: idempotence at a concrete path, with the concrete state of
the first run. -/
theorem c9_witness :
    (create_mailbox (create_mailbox [] "A.B" '.').1 "A.B" '.').1
        = (create_mailbox [] "A.B" '.').1
    ∧ (∀ name, Op.createOp name ∉ (create_mailbox (create_mailbox [] "A.B" '.').1 "A.B" '.').2)
    ∧ (create_mailbox [] "A.B" '.').1 = ["A", "A.B"] :=
  ⟨(c9_create_mailbox_idempotent [] "A.B" '.').1,
   (c9_create_mailbox_idempotent [] "A.B" '.').2,
   by decide⟩

end ImapArchiver
